import Mathlib

/-!
Verification development for the superellipsoid morphing renderer
(`multiple_lights.cpp`).

The program's float arithmetic is modelled over the real numbers `ℝ`
(the spec's claims about vertex values are stated "in the real-arithmetic
embedding").  The mesh generator `generateSuperellipsoid` writes into two
output containers passed by reference after clearing them; it is modelled
as a pure function from the prior container contents (which it ignores,
mirroring the `clear()` calls) and the shape parameters to the fresh
vertex and index lists.  The tessellation resolution parameters `stacks'`
and `slices` are C `int`s used only as nonnegative loop bounds; they are
modelled as naturals (every claim assumes `stacks', slices ≥ 1`).
-/

open Real

namespace MultipleLights

/-- A mesh vertex as in `struct Vertex`: position, normal, texture
coordinates, each component a real modelling a `float`. -/
structure Vertex where
  position : ℝ × ℝ × ℝ
  normal : ℝ × ℝ × ℝ
  texCoords : ℝ × ℝ

/-- Model of `glm::normalize` on a 3-vector: divide by the Euclidean length. -/
noncomputable def normalize3 (p : ℝ × ℝ × ℝ) : ℝ × ℝ × ℝ :=
  let len := Real.sqrt (p.1 ^ 2 + p.2.1 ^ 2 + p.2.2 ^ 2)
  (p.1 / len, p.2.1 / len, p.2.2 / len)

/-- The `sgn` lambda in `generateSuperellipsoid`:
`(x < 0) ? -1.0f : 1.0f`. -/
noncomputable def sgn (x : ℝ) : ℝ := if x < 0 then -1 else 1

/-- The `powe` lambda in `generateSuperellipsoid`:
`sgn(base) * std::pow(std::abs(base), exp)`, with `std::pow` on a
nonnegative base modelled by the real power `Real.rpow`. -/
noncomputable def powe (base e : ℝ) : ℝ := sgn base * |base| ^ e

/-- The vertex pushed by loop iteration `(i, j)` of
`generateSuperellipsoid`: parameter angles
`u = -π/2 + i/stacks' · π`, `v = -π + j/slices · 2π`, position from the
superellipsoid parametrization, the approximate ellipsoid-gradient
normal, and linear-grid texture coordinates. -/
noncomputable def vertexAt (a b c n1 n2 : ℝ) (stacks' slices i j : ℕ) : Vertex :=
  let u : ℝ := -π / 2 + (i : ℝ) / (stacks' : ℝ) * π
  let v : ℝ := -π + (j : ℝ) / (slices : ℝ) * 2 * π
  let cu := Real.cos u
  let su := Real.sin u
  let cv := Real.cos v
  let sv := Real.sin v
  let x := a * powe cu n1 * powe cv n2
  let y := b * powe cu n1 * powe sv n2
  let z := c * powe su n1
  { position := (x, y, z)
    normal := normalize3 (x / (a * a), y / (b * b), z / (c * c))
    texCoords := ((j : ℝ) / (slices : ℝ), (i : ℝ) / (stacks' : ℝ)) }

/-- The six indices pushed for grid cell `(i, j)`:
`first = i*(slices+1)+j`, `second = first+slices+1`, then
`first, second, first+1, second, second+1, first+1`. -/
def cellIndices (slices i j : ℕ) : List ℕ :=
  let first := i * (slices + 1) + j
  let second := first + slices + 1
  [first, second, first + 1, second, second + 1, first + 1]

/-- Model of `generateSuperellipsoid`: clears both output containers (so their
prior contents `vertices0`, `indices0` are discarded), then pushes one
vertex per grid point `(i, j)` with `0 ≤ i ≤ stacks'`, `0 ≤ j ≤ slices`
(row-major, `i` outer), and six indices per grid cell `(i, j)` with
`0 ≤ i < stacks'`, `0 ≤ j < slices`. -/
noncomputable def generateSuperellipsoid (vertices0 : List Vertex) (indices0 : List ℕ)
    (a b c n1 n2 : ℝ) (stacks' slices : ℕ) : List Vertex × List ℕ :=
  -- vertices.clear(); indices.clear();
  let vertices : List Vertex := []
  let indices : List ℕ := []
  let vertices := (List.range (stacks' + 1)).foldl (fun acc i =>
    (List.range (slices + 1)).foldl (fun acc2 j =>
      acc2 ++ [vertexAt a b c n1 n2 stacks' slices i j]) acc) vertices
  let indices := (List.range stacks').foldl (fun acc i =>
    (List.range slices).foldl (fun acc2 j =>
      acc2 ++ cellIndices slices i j) acc) indices
  (vertices, indices)

/-! Helpers for lists built by loops that append per range element. -/

/-- Concatenation of `g 0 ++ g 1 ++ ⋯ ++ g (m-1)`, the result of a
`for` loop over `0..m-1` whose body appends `g i`. -/
def concatMapRange {α : Type} (m : ℕ) (g : ℕ → List α) : List α :=
  match m with
  | 0 => []
  | k + 1 => concatMapRange k g ++ g k

theorem foldl_append_eq_concatMapRange {α : Type} (m : ℕ) (g : ℕ → List α)
    (init : List α) :
    (List.range m).foldl (fun acc x => acc ++ g x) init = init ++ concatMapRange m g := by
  induction m generalizing init with
  | zero => simp [concatMapRange]
  | succ k ih =>
      rw [List.range_succ, List.foldl_append, ih]
      simp [concatMapRange]

theorem length_concatMapRange_const {α : Type} (m L : ℕ) (g : ℕ → List α)
    (h : ∀ i, i < m → (g i).length = L) :
    (concatMapRange m g).length = m * L := by
  induction m with
  | zero => simp [concatMapRange]
  | succ k ih =>
      rw [concatMapRange, List.length_append, ih (fun i hi => h i (by omega)),
        h k (by omega)]
      ring

theorem getElem?_concatMapRange {α : Type} (m L : ℕ) (g : ℕ → List α)
    (h : ∀ i, i < m → (g i).length = L) (i j : ℕ) (hi : i < m) (hj : j < L) :
    (concatMapRange m g)[i * L + j]? = (g i)[j]? := by
  induction m with
  | zero => omega
  | succ k ih =>
      have hlen : (concatMapRange k g).length = k * L :=
        length_concatMapRange_const k L g (fun t ht => h t (by omega))
      by_cases hik : i < k
      · rw [concatMapRange, List.getElem?_append_left]
        · exact ih (fun t ht => h t (by omega)) hik
        · rw [hlen]
          calc i * L + j < i * L + L := by omega
            _ = (i + 1) * L := by ring
            _ ≤ k * L := Nat.mul_le_mul_right L hik
      · have hik' : i = k := by omega
        subst hik'
        rw [concatMapRange, List.getElem?_append_right (by rw [hlen]; omega), hlen,
          Nat.add_sub_cancel_left]

theorem mem_concatMapRange {α : Type} (m : ℕ) (g : ℕ → List α) (x : α) :
    x ∈ concatMapRange m g ↔ ∃ i, i < m ∧ x ∈ g i := by
  induction m with
  | zero => simp [concatMapRange]
  | succ k ih =>
      rw [concatMapRange, List.mem_append, ih]
      constructor
      · rintro (⟨i, hi, hx⟩ | hx)
        · exact ⟨i, by omega, hx⟩
        · exact ⟨k, by omega, hx⟩
      · rintro ⟨i, hi, hx⟩
        by_cases hik : i < k
        · exact Or.inl ⟨i, hik, hx⟩
        · have hik' : i = k := by omega
          subst hik'
          exact Or.inr hx

theorem concatMapRange_singleton {α : Type} (m : ℕ) (w : ℕ → α) :
    concatMapRange m (fun i => [w i]) = (List.range m).map w := by
  induction m with
  | zero => simp [concatMapRange]
  | succ k ih =>
      rw [concatMapRange, ih, List.range_succ, List.map_append]
      rfl

theorem concatMapRange_eq_flatMap {α : Type} (m : ℕ) (g : ℕ → List α) :
    concatMapRange m g = (List.range m).flatMap g := by
  induction m with
  | zero => simp [concatMapRange]
  | succ k ih =>
      rw [concatMapRange, ih, List.range_succ, List.flatMap_append]
      simp

/-! Canonical forms of the generator output. -/

/-- The vertex list of `generateSuperellipsoid` as a concatenation over
the grid rows. -/
noncomputable def superVertices (a b c n1 n2 : ℝ) (stacks' slices : ℕ) : List Vertex :=
  concatMapRange (stacks' + 1) fun i =>
    concatMapRange (slices + 1) fun j => [vertexAt a b c n1 n2 stacks' slices i j]

/-- The index list of `generateSuperellipsoid` as a concatenation over
the grid cells. -/
def superIndices (stacks' slices : ℕ) : List ℕ :=
  concatMapRange stacks' fun i => concatMapRange slices fun j => cellIndices slices i j

theorem generateSuperellipsoid_eq (vertices0 : List Vertex) (indices0 : List ℕ)
    (a b c n1 n2 : ℝ) (stacks' slices : ℕ) :
    generateSuperellipsoid vertices0 indices0 a b c n1 n2 stacks' slices =
      (superVertices a b c n1 n2 stacks' slices, superIndices stacks' slices) := by
  unfold generateSuperellipsoid superVertices superIndices
  simp only [foldl_append_eq_concatMapRange, List.nil_append]

theorem superVertices_eq_map (a b c n1 n2 : ℝ) (stacks' slices : ℕ) :
    superVertices a b c n1 n2 stacks' slices =
      concatMapRange (stacks' + 1) fun i =>
        (List.range (slices + 1)).map (vertexAt a b c n1 n2 stacks' slices i) := by
  unfold superVertices
  simp only [concatMapRange_singleton]

theorem length_superVertices (a b c n1 n2 : ℝ) (stacks' slices : ℕ) :
    (superVertices a b c n1 n2 stacks' slices).length = (stacks' + 1) * (slices + 1) := by
  rw [superVertices_eq_map]
  exact length_concatMapRange_const _ _ _ (fun i hi => by simp)

theorem length_superIndices (stacks' slices : ℕ) :
    (superIndices stacks' slices).length = 6 * stacks' * slices := by
  unfold superIndices
  rw [length_concatMapRange_const stacks' (slices * 6)]
  · ring
  · intro i hi
    rw [length_concatMapRange_const slices 6]
    intro j hj
    simp [cellIndices]

theorem cellIndices_lt (stacks' slices i j k : ℕ) (hi : i < stacks') (hj : j < slices)
    (hk : k ∈ cellIndices slices i j) : k < (stacks' + 1) * (slices + 1) := by
  have hmul : i * (slices + 1) + 2 * slices + 2 ≤ (stacks' + 1) * (slices + 1) := by
    have h1 : (i + 2) * (slices + 1) ≤ (stacks' + 1) * (slices + 1) :=
      Nat.mul_le_mul_right _ (by omega)
    calc i * (slices + 1) + 2 * slices + 2 = (i + 2) * (slices + 1) := by ring
      _ ≤ (stacks' + 1) * (slices + 1) := h1
  simp only [cellIndices, List.mem_cons, List.not_mem_nil, or_false] at hk
  set F := i * (slices + 1) with hF
  set T := (stacks' + 1) * (slices + 1) with hT
  rcases hk with h | h | h | h | h | h <;> omega

/-- C1: for every `stacks, slices ≥ 1` and all shape parameters
`(a, b, c, n1, n2)`, `generateSuperellipsoid` returns exactly
`(stacks+1)*(slices+1)` vertices and exactly `6*stacks*slices` indices,
every index is strictly below the vertex count, and both lengths equal
closed forms in `stacks` and `slices` alone, hence do not depend on
`(a, b, c, n1, n2)`. -/
theorem generate_mesh_sizes (vertices0 : List Vertex) (indices0 : List ℕ)
    (a b c n1 n2 : ℝ) (stacks' slices : ℕ) (hst : 1 ≤ stacks') (hsl : 1 ≤ slices) :
    ((generateSuperellipsoid vertices0 indices0 a b c n1 n2 stacks' slices).1).length
        = (stacks' + 1) * (slices + 1) ∧
    ((generateSuperellipsoid vertices0 indices0 a b c n1 n2 stacks' slices).2).length
        = 6 * stacks' * slices ∧
    ∀ k ∈ (generateSuperellipsoid vertices0 indices0 a b c n1 n2 stacks' slices).2,
      k < ((generateSuperellipsoid vertices0 indices0 a b c n1 n2 stacks' slices).1).length := by
  rw [generateSuperellipsoid_eq]
  refine ⟨length_superVertices a b c n1 n2 stacks' slices,
    length_superIndices stacks' slices, ?_⟩
  intro k hk
  rw [length_superVertices]
  unfold superIndices at hk
  rw [mem_concatMapRange] at hk
  obtain ⟨i, hi, hk⟩ := hk
  rw [mem_concatMapRange] at hk
  obtain ⟨j, hj, hk⟩ := hk
  exact cellIndices_lt stacks' slices i j k hi hj hk

/-- Witness for C1 at `stacks = slices = 1`, `a = b = c = n1 = n2 = 1`. -/
theorem generate_mesh_sizes_witness :
    ((generateSuperellipsoid [] [] 1 1 1 1 1 1 1).1).length = (1 + 1) * (1 + 1) ∧
    ((generateSuperellipsoid [] [] 1 1 1 1 1 1 1).2).length = 6 * 1 * 1 ∧
    ∀ k ∈ (generateSuperellipsoid [] [] 1 1 1 1 1 1 1).2,
      k < ((generateSuperellipsoid [] [] 1 1 1 1 1 1 1).1).length :=
  generate_mesh_sizes [] [] 1 1 1 1 1 1 1 (le_refl 1) (le_refl 1)

/-- C3: the index list returned by `generateSuperellipsoid` is exactly
the row-major concatenation, over cells `(i, j)` with `0 ≤ i < stacks`,
`0 ≤ j < slices` (`i` outer, `j` inner), of the six indices
`(first, second, first+1, second, second+1, first+1)` where
`first = i*(slices+1)+j` and `second = first+slices+1`. -/
theorem generate_index_rule (vertices0 : List Vertex) (indices0 : List ℕ)
    (a b c n1 n2 : ℝ) (stacks' slices : ℕ) (hst : 1 ≤ stacks') (hsl : 1 ≤ slices) :
    (generateSuperellipsoid vertices0 indices0 a b c n1 n2 stacks' slices).2 =
      (List.range stacks').flatMap (fun i => (List.range slices).flatMap (fun j =>
        [i * (slices + 1) + j,
         i * (slices + 1) + j + slices + 1,
         i * (slices + 1) + j + 1,
         i * (slices + 1) + j + slices + 1,
         i * (slices + 1) + j + slices + 1 + 1,
         i * (slices + 1) + j + 1])) := by
  rw [generateSuperellipsoid_eq]
  show superIndices stacks' slices = _
  unfold superIndices
  simp only [concatMapRange_eq_flatMap, cellIndices]

/-- Witness for C3 at `stacks = slices = 1`, `a = b = c = n1 = n2 = 1`. -/
theorem generate_index_rule_witness :
    (generateSuperellipsoid [] [] 1 1 1 1 1 1 1).2 =
      (List.range 1).flatMap (fun i => (List.range 1).flatMap (fun j =>
        [i * (1 + 1) + j,
         i * (1 + 1) + j + 1 + 1,
         i * (1 + 1) + j + 1,
         i * (1 + 1) + j + 1 + 1,
         i * (1 + 1) + j + 1 + 1 + 1,
         i * (1 + 1) + j + 1])) :=
  generate_index_rule [] [] 1 1 1 1 1 1 1 (le_refl 1) (le_refl 1)

/-- C8: `generateSuperellipsoid` is deterministic and independent of the
prior contents of the output containers passed in: two calls with
identical shape and resolution arguments produce identical vertex and
index arrays whatever the containers held beforehand (the generator
clears them on every call and keeps no state between calls). -/
theorem generate_deterministic (vertices0 vertices0' : List Vertex)
    (indices0 indices0' : List ℕ) (a b c n1 n2 : ℝ) (stacks' slices : ℕ) :
    generateSuperellipsoid vertices0 indices0 a b c n1 n2 stacks' slices =
      generateSuperellipsoid vertices0' indices0' a b c n1 n2 stacks' slices := rfl

/-- C10: the index array returned by `generateSuperellipsoid` depends
only on `(stacks, slices)`: two calls with the same resolution but
arbitrary, possibly different, shape parameters and prior container
contents return identical index arrays. -/
theorem generate_indices_param_independent (vertices0 vertices0' : List Vertex)
    (indices0 indices0' : List ℕ) (a b c n1 n2 a' b' c' n1' n2' : ℝ)
    (stacks' slices : ℕ) (hst : 1 ≤ stacks') (hsl : 1 ≤ slices) :
    (generateSuperellipsoid vertices0 indices0 a b c n1 n2 stacks' slices).2 =
      (generateSuperellipsoid vertices0' indices0' a' b' c' n1' n2' stacks' slices).2 := rfl

/-- Witness for C10 at `stacks = slices = 1` with two different
parameter sets. -/
theorem generate_indices_param_independent_witness :
    (generateSuperellipsoid [] [] 1 1 1 1 1 1 1).2 =
      (generateSuperellipsoid [] [] 2 3 4 5 6 1 1).2 :=
  generate_indices_param_independent [] [] [] [] 1 1 1 1 1 2 3 4 5 6 1 1
    (le_refl 1) (le_refl 1)

/-! Vertex values: claims about the loop-body formulas. -/

/-- The spec's `sgnpow(base, exp) = sign(base) · |base|^exp`, stated with
the mathematical sign function (`Real.sign`, zero at zero). -/
noncomputable def sgnpowSpec (base e : ℝ) : ℝ := Real.sign base * |base| ^ e

/-- The vertex the spec prescribes for grid position `(i, j)`: position
`(a·sgnpow(cos u, n1)·sgnpow(cos v, n2), b·sgnpow(cos u, n1)·sgnpow(sin v, n2),
c·sgnpow(sin u, n1))` with `u = -π/2 + (i/stacks)·π`,
`v = -π + (j/slices)·2π`, normal `normalize(x/a², y/b², z/c²)` of that
position, texture coordinate `(j/slices, i/stacks)`. -/
noncomputable def specVertex (a b c n1 n2 : ℝ) (stacks' slices i j : ℕ) : Vertex :=
  let u : ℝ := -π / 2 + (i : ℝ) / (stacks' : ℝ) * π
  let v : ℝ := -π + (j : ℝ) / (slices : ℝ) * 2 * π
  let x := a * sgnpowSpec (Real.cos u) n1 * sgnpowSpec (Real.cos v) n2
  let y := b * sgnpowSpec (Real.cos u) n1 * sgnpowSpec (Real.sin v) n2
  let z := c * sgnpowSpec (Real.sin u) n1
  { position := (x, y, z)
    normal := normalize3 (x / a ^ 2, y / b ^ 2, z / c ^ 2)
    texCoords := ((j : ℝ) / (slices : ℝ), (i : ℝ) / (stacks' : ℝ)) }

/-- For a positive exponent, the code's `powe` (with `sgn 0 = 1`) agrees
with the spec's sign-power (with `sign 0 = 0`): the two differ only when
the base is zero, where both sides vanish because `0^e = 0` for `e > 0`. -/
theorem powe_eq_sgnpowSpec (base e : ℝ) (he : 0 < e) :
    powe base e = sgnpowSpec base e := by
  unfold powe sgnpowSpec sgn
  rcases lt_trichotomy base 0 with h | h | h
  · rw [if_pos h, Real.sign_of_neg h]
  · subst h
    simp [Real.zero_rpow he.ne']
  · rw [if_neg (not_lt.mpr h.le), Real.sign_of_pos h]

theorem vertexAt_eq_specVertex (a b c n1 n2 : ℝ) (hn1 : 0 < n1) (hn2 : 0 < n2)
    (stacks' slices i j : ℕ) :
    vertexAt a b c n1 n2 stacks' slices i j = specVertex a b c n1 n2 stacks' slices i j := by
  have h1 : ∀ base : ℝ, powe base n1 = sgnpowSpec base n1 :=
    fun base => powe_eq_sgnpowSpec base n1 hn1
  have h2 : ∀ base : ℝ, powe base n2 = sgnpowSpec base n2 :=
    fun base => powe_eq_sgnpowSpec base n2 hn2
  simp only [vertexAt, specVertex, h1, h2, pow_two]

/-- C2: the vertex `generateSuperellipsoid` emits at grid position
`(i, j)` (list index `i*(slices+1)+j`) has the spec's position with
`sgnpow(base, exp) = sign(base)·|base|^exp`, the approximate
ellipsoid-gradient normal `normalize(x/a², y/b², z/c²)`, and texture
coordinate `(j/slices, i/stacks)`.  The shape exponents are positive
(per the spec's data model, `n1, n2` are positive exponents). -/
theorem generate_vertex_at_grid (vertices0 : List Vertex) (indices0 : List ℕ)
    (a b c n1 n2 : ℝ) (stacks' slices i j : ℕ) (hn1 : 0 < n1) (hn2 : 0 < n2)
    (hst : 1 ≤ stacks') (hsl : 1 ≤ slices) (hi : i ≤ stacks') (hj : j ≤ slices) :
    ((generateSuperellipsoid vertices0 indices0 a b c n1 n2 stacks' slices).1)[i * (slices + 1) + j]?
      = some (specVertex a b c n1 n2 stacks' slices i j) := by
  rw [generateSuperellipsoid_eq]
  show (superVertices a b c n1 n2 stacks' slices)[i * (slices + 1) + j]? = _
  rw [superVertices_eq_map,
    getElem?_concatMapRange (stacks' + 1) (slices + 1) _ (fun t ht => by simp)
      i j (by omega) (by omega),
    List.getElem?_map, List.getElem?_range (by omega)]
  simp [vertexAt_eq_specVertex a b c n1 n2 hn1 hn2]

/-- Witness for C2 at `stacks = slices = 1`, `(i, j) = (0, 0)`,
`a = b = c = n1 = n2 = 1`. -/
theorem generate_vertex_at_grid_witness :
    ((generateSuperellipsoid [] [] 1 1 1 1 1 1 1).1)[0 * (1 + 1) + 0]?
      = some (specVertex 1 1 1 1 1 1 1 0 0) :=
  generate_vertex_at_grid [] [] 1 1 1 1 1 1 1 0 0 one_pos one_pos
    (le_refl 1) (le_refl 1) (Nat.zero_le 1) (Nat.zero_le 1)

/-- The code lambda `powe` with exponent 1 is the identity. -/
theorem powe_one (t : ℝ) : powe t 1 = t := by
  unfold powe sgn
  rw [Real.rpow_one]
  rcases lt_or_le t 0 with h | h
  · rw [if_pos h, abs_of_neg h]
    ring
  · rw [if_neg (not_lt.mpr h), abs_of_nonneg h]
    ring

/-- C4: with `a = b = c = 1` and `n1 = n2 = 1`, every vertex position
generated by `generateSuperellipsoid` lies at distance exactly 1 from
the origin in the real-arithmetic embedding. -/
theorem generate_unit_sphere (vertices0 : List Vertex) (indices0 : List ℕ)
    (stacks' slices : ℕ) (hst : 1 ≤ stacks') (hsl : 1 ≤ slices) :
    ∀ w ∈ (generateSuperellipsoid vertices0 indices0 1 1 1 1 1 stacks' slices).1,
      Real.sqrt (w.position.1 ^ 2 + w.position.2.1 ^ 2 + w.position.2.2 ^ 2) = 1 := by
  intro w hw
  rw [generateSuperellipsoid_eq] at hw
  replace hw : w ∈ superVertices 1 1 1 1 1 stacks' slices := hw
  rw [superVertices_eq_map, mem_concatMapRange] at hw
  obtain ⟨i, hi, hw⟩ := hw
  rw [List.mem_map] at hw
  obtain ⟨j, hj, rfl⟩ := hw
  have key : ∀ u v : ℝ,
      (Real.cos u * Real.cos v) ^ 2 + (Real.cos u * Real.sin v) ^ 2 + Real.sin u ^ 2 = 1 := by
    intro u v
    have hu := Real.sin_sq_add_cos_sq u
    have hv := Real.sin_sq_add_cos_sq v
    nlinarith [hu, hv]
  simp only [vertexAt, powe_one, one_mul]
  rw [key, Real.sqrt_one]

/-- Witness for C4 at `stacks = slices = 1`, evaluated at the vertex of
grid position `(0, 0)`. -/
theorem generate_unit_sphere_witness :
    Real.sqrt ((vertexAt 1 1 1 1 1 1 1 0 0).position.1 ^ 2
      + (vertexAt 1 1 1 1 1 1 1 0 0).position.2.1 ^ 2
      + (vertexAt 1 1 1 1 1 1 1 0 0).position.2.2 ^ 2) = 1 := by
  have hmem : vertexAt 1 1 1 1 1 1 1 0 0
      ∈ (generateSuperellipsoid [] [] 1 1 1 1 1 1 1).1 := by
    rw [generateSuperellipsoid_eq]
    show _ ∈ superVertices 1 1 1 1 1 1 1
    rw [superVertices_eq_map, mem_concatMapRange]
    exact ⟨0, by omega, List.mem_map.2 ⟨0, by simp, rfl⟩⟩
  exact generate_unit_sphere [] [] 1 1 (le_refl 1) (le_refl 1) _ hmem

/-! Spawn edge-detector and scene instance registry. -/

/-- Componentwise sum of two 3-vectors (`glm::vec3` addition). -/
noncomputable def add3 (p q : ℝ × ℝ × ℝ) : ℝ × ℝ × ℝ :=
  (p.1 + q.1, p.2.1 + q.2.1, p.2.2 + q.2.2)

/-- Scalar multiple of a 3-vector (`glm::vec3 * float`). -/
noncomputable def smul3 (p : ℝ × ℝ × ℝ) (s : ℝ) : ℝ × ℝ × ℝ :=
  (p.1 * s, p.2.1 * s, p.2.2 * s)

/-- The globals the spawn logic reads and writes: the edge-trigger latch
`e_pressed_last_frame` and the registry `spawnedSuperellipsoids`. -/
structure SpawnState where
  e_pressed_last_frame : Bool
  spawnedSuperellipsoids : List (ℝ × ℝ × ℝ)

/-- The spawn section of `processInput`: given the camera pose and the
sampled state `e_is_pressed` of the E key, appends
`camera.Position + camera.Front * 2.0f` to the registry exactly when
`e_is_pressed && !e_pressed_last_frame`, then sets the latch to
`e_is_pressed` unconditionally.  The returned `Bool` records whether a
spawn was logged on this call. -/
noncomputable def processSpawnInput (cameraPosition cameraFront : ℝ × ℝ × ℝ)
    (e_is_pressed : Bool) (st : SpawnState) : SpawnState × Bool :=
  if e_is_pressed && !st.e_pressed_last_frame then
    ({ e_pressed_last_frame := e_is_pressed,
       spawnedSuperellipsoids :=
         st.spawnedSuperellipsoids ++ [add3 cameraPosition (smul3 cameraFront 2)] },
     true)
  else
    ({ st with e_pressed_last_frame := e_is_pressed }, false)

/-- Run the spawn check over a sequence of frames; each frame carries the
camera position, the camera forward direction and the sampled key state
in effect at that call.  Also accumulates the per-call spawn reports. -/
noncomputable def runSpawns (frames : List ((ℝ × ℝ × ℝ) × (ℝ × ℝ × ℝ) × Bool))
    (st : SpawnState) : SpawnState × List Bool :=
  frames.foldl
    (fun acc f =>
      let r := processSpawnInput f.1 f.2.1 f.2.2 acc.1
      (r.1, acc.2 ++ [r.2]))
    (st, [])

/-- The per-frame `for (const auto& position : spawnedSuperellipsoids)`
loop: reads the registry in insertion order and leaves it unchanged. -/
def forEachPositions (st : SpawnState) : List (ℝ × ℝ × ℝ) × SpawnState :=
  (st.spawnedSuperellipsoids, st)

/-- C5: feeding the spawn edge-detector the sampled key states
`[false, true, true, false, true]` from a released latch produces
exactly 2 spawns, at the 2nd and 5th samples, each appending one
instance at the camera position plus the camera forward direction times
2.0 in effect at that call; and the latch is set to the sampled state
unconditionally on every call. -/
theorem rising_edge_spawn_sequence (S : List (ℝ × ℝ × ℝ))
    (p1 p2 p3 p4 p5 f1 f2 f3 f4 f5 : ℝ × ℝ × ℝ) :
    runSpawns [(p1, f1, false), (p2, f2, true), (p3, f3, true),
        (p4, f4, false), (p5, f5, true)]
        { e_pressed_last_frame := false, spawnedSuperellipsoids := S }
      = ({ e_pressed_last_frame := true,
           spawnedSuperellipsoids :=
             S ++ [add3 p2 (smul3 f2 2), add3 p5 (smul3 f5 2)] },
         [false, true, false, false, true])
    ∧ ∀ (pos front : ℝ × ℝ × ℝ) (pressed : Bool) (st : SpawnState),
        ((processSpawnInput pos front pressed st).1).e_pressed_last_frame = pressed := by
  constructor
  · simp [runSpawns, processSpawnInput, List.append_assoc]
  · intro pos front pressed st
    unfold processSpawnInput
    split <;> rfl

/-- The state component of `runSpawns`: folding the spawn check alone. -/
noncomputable def runSpawnsState (frames : List ((ℝ × ℝ × ℝ) × (ℝ × ℝ × ℝ) × Bool))
    (st : SpawnState) : SpawnState :=
  frames.foldl (fun s f => (processSpawnInput f.1 f.2.1 f.2.2 s).1) st

theorem runSpawns_fst (frames : List ((ℝ × ℝ × ℝ) × (ℝ × ℝ × ℝ) × Bool))
    (st : SpawnState) : (runSpawns frames st).1 = runSpawnsState frames st := by
  suffices h : ∀ (l : List ((ℝ × ℝ × ℝ) × (ℝ × ℝ × ℝ) × Bool)) (s : SpawnState)
      (bs : List Bool),
      (l.foldl (fun acc f =>
          let r := processSpawnInput f.1 f.2.1 f.2.2 acc.1
          (r.1, acc.2 ++ [r.2])) (s, bs)).1 = runSpawnsState l s by
    exact h frames st []
  intro l
  induction l with
  | nil =>
      intro s bs
      rfl
  | cons g gs ihg =>
      intro s bs
      rw [List.foldl_cons]
      exact ihg _ _

/-- Each single spawn check extends the registry on the right, never
removing or rewriting what is already recorded. -/
theorem processSpawnInput_extends (pos front : ℝ × ℝ × ℝ) (pressed : Bool)
    (st : SpawnState) :
    ∃ t, ((processSpawnInput pos front pressed st).1).spawnedSuperellipsoids
          = st.spawnedSuperellipsoids ++ t := by
  unfold processSpawnInput
  split
  · exact ⟨[add3 pos (smul3 front 2)], rfl⟩
  · exact ⟨[], by simp⟩

/-- C7: the spawned-instance registry is append-only: every spawn-check
call leaves the prior registry contents as an unchanged prefix (over any
frame sequence, so nothing is removed or mutated for the session);
spawning at `P1` then `P2` yields iteration visiting `P1` before `P2`;
and iterating the registry twice without an intervening spawn visits the
same positions in the same order while leaving the registry untouched. -/
theorem registry_append_only :
    (∀ (frames : List ((ℝ × ℝ × ℝ) × (ℝ × ℝ × ℝ) × Bool)) (st : SpawnState),
      ∃ t, ((runSpawns frames st).1).spawnedSuperellipsoids
            = st.spawnedSuperellipsoids ++ t)
    ∧ (∀ (S : List (ℝ × ℝ × ℝ)) (p1 p2 f1 f2 : ℝ × ℝ × ℝ),
        SpawnState.spawnedSuperellipsoids
          (runSpawns [(p1, f1, true), (p2, f2, false), (p2, f2, true)]
            { e_pressed_last_frame := false, spawnedSuperellipsoids := S }).1
          = S ++ [add3 p1 (smul3 f1 2), add3 p2 (smul3 f2 2)])
    ∧ (∀ st : SpawnState,
        (forEachPositions st).2 = st
        ∧ (forEachPositions ((forEachPositions st).2)).1 = (forEachPositions st).1) := by
  refine ⟨?_, ?_, ?_⟩
  · intro frames st
    rw [runSpawns_fst]
    induction frames generalizing st with
    | nil => exact ⟨[], by simp [runSpawnsState]⟩
    | cons f rest ih =>
        obtain ⟨t₀, ht₀⟩ := processSpawnInput_extends f.1 f.2.1 f.2.2 st
        obtain ⟨t₁, ht₁⟩ := ih (processSpawnInput f.1 f.2.1 f.2.2 st).1
        refine ⟨t₀ ++ t₁, ?_⟩
        unfold runSpawnsState
        rw [List.foldl_cons]
        show (runSpawnsState rest _).spawnedSuperellipsoids = _
        rw [ht₁, ht₀, List.append_assoc]
  · intro S p1 p2 f1 f2
    simp [runSpawns, processSpawnInput, List.append_assoc]
  · intro st
    exact ⟨rfl, rfl⟩

/-! Per-frame morph parameters. -/

/-- The frame loop's `n1 = 0.2f + 1.8f * (std::sin(t * 1.2f) * 0.5f + 0.5f)`. -/
noncomputable def n1Morph (t : ℝ) : ℝ := 0.2 + 1.8 * (Real.sin (t * 1.2) * 0.5 + 0.5)

/-- The frame loop's `n2 = 0.2f + 1.8f * (std::cos(t * 0.8f) * 0.5f + 0.5f)`. -/
noncomputable def n2Morph (t : ℝ) : ℝ := 0.2 + 1.8 * (Real.cos (t * 0.8) * 0.5 + 0.5)

/-- C6: the per-frame morph parameters `n1(t)` and `n2(t)` both lie in
`[0.2, 2.0]` for every real `t`, are continuous functions of `t`, and at
`t = 0` take the values `n1 = 1.1` and `n2 = 2.0`. -/
theorem morph_params_bounded_continuous :
    (∀ t : ℝ, 0.2 ≤ n1Morph t ∧ n1Morph t ≤ 2 ∧ 0.2 ≤ n2Morph t ∧ n2Morph t ≤ 2)
    ∧ Continuous n1Morph ∧ Continuous n2Morph
    ∧ n1Morph 0 = 1.1 ∧ n2Morph 0 = 2 := by
  refine ⟨fun t => ⟨?_, ?_, ?_, ?_⟩, ?_, ?_, ?_, ?_⟩
  · unfold n1Morph
    nlinarith [Real.neg_one_le_sin (t * 1.2)]
  · unfold n1Morph
    nlinarith [Real.sin_le_one (t * 1.2)]
  · unfold n2Morph
    nlinarith [Real.neg_one_le_cos (t * 0.8)]
  · unfold n2Morph
    nlinarith [Real.cos_le_one (t * 0.8)]
  · unfold n1Morph
    fun_prop
  · unfold n2Morph
    fun_prop
  · unfold n1Morph
    rw [zero_mul, Real.sin_zero]
    norm_num
  · unfold n2Morph
    rw [zero_mul, Real.cos_zero]
    norm_num

/-! Texture loading failure path. -/

/-- The decoded image `stbi_load` hands back on success: dimensions and
channel count (the raw pixel bytes are irrelevant to the claims). -/
structure ImageData where
  width : ℤ
  height : ℤ
  nrComponents : ℤ

/-- What a call to `loadTexture` does, observably: the diagnostics it
prints, whether it aborted the process, and the texture handle it
returns. -/
structure LoadTextureOutcome where
  logs : List String
  aborted : Bool
  textureID : ℕ

/-- Model of `loadTexture`, following its control flow: `glGenTextures` yields
`textureID` (an opaque handle, passed in); if `stbi_load` succeeds the
image is uploaded and no diagnostic is printed, otherwise the failure is
logged; either way the function falls through to `return textureID`
without aborting.  GL upload calls have no observable effect here. -/
def loadTexture (textureID : ℕ) (path : String) (data : Option ImageData) :
    LoadTextureOutcome :=
  match data with
  | some _ =>
      { logs := [], aborted := false, textureID := textureID }
  | none =>
      { logs := ["Texture failed to load at path: " ++ path],
        aborted := false, textureID := textureID }

/-- C9: when texture decoding fails, `loadTexture` does not abort: it
logs the "Texture failed to load at path" diagnostic and returns the
texture handle generated at entry (whose storage was never defined), so
the caller continues with that undefined texture. -/
theorem loadTexture_failure_nonfatal (textureID : ℕ) (path : String) :
    loadTexture textureID path none =
      { logs := ["Texture failed to load at path: " ++ path],
        aborted := false, textureID := textureID } := rfl

end MultipleLights
